import Mathlib

/-!
Verification of the GoPro file-rename utility (`gopro_utility.py`).

The Python source is shallowly embedded below.  Pure string manipulation is
translated to executable Lean functions over `String`/`List Char`; the
external effects (directory listing, `ffprobe`, `ffmpeg`, `shutil.copy2`,
file creation/removal) are represented by explicit environment records whose
fields describe the observable behaviour of each external call, and the
functions return records describing the observable outcome (files left on
disk, progress values emitted, whether the process was waited on, whether an
exception was caught).  Python `float` values are modelled as rationals.
-/

namespace GoproUtility

/-! ### Models of the Python `str` primitives used by the source -/

/-- Model of Python `s.startswith(p)`: `p` is a prefix of `s`. -/
def pyStartswith (s p : String) : Bool :=
  p.data.isPrefixOf s.data

/-- Model of Python `s.endswith(p)`: `p` is a suffix of `s`. -/
def pyEndswith (s p : String) : Bool :=
  p.data.isSuffixOf s.data

/-- Model of the Python slice `s[a:b]` for `0 ≤ a ≤ b` (indices clamp to the
string length, exactly as in Python). -/
def pySlice (s : String) (a b : Nat) : String :=
  ⟨(s.data.take b).drop a⟩

/-- Model of Python `s.strip()`: remove leading and trailing whitespace. -/
def pyStrip (s : String) : String :=
  ⟨((s.data.dropWhile Char.isWhitespace).reverse.dropWhile Char.isWhitespace).reverse⟩

/-- Fuel-driven worker for `pySplitOn`; the fuel is an upper bound on the
number of characters still to be consumed, so it never runs out when called
with `length + 1`. -/
def splitOnAux (sep : List Char) : Nat → List Char → List Char → List (List Char)
  | 0, cs, acc => [acc.reverse ++ cs]
  | _ + 1, [], acc => [acc.reverse]
  | n + 1, c :: rest, acc =>
    if sep.isPrefixOf (c :: rest) then
      acc.reverse :: splitOnAux sep n (List.drop sep.length (c :: rest)) []
    else
      splitOnAux sep n rest (c :: acc)

/-- Model of Python `s.split(sep)` for a non-empty separator `sep`:
leftmost, non-overlapping occurrences, keeping empty pieces. -/
def pySplitOn (s sep : String) : List String :=
  if sep.data.isEmpty then [s]
  else (splitOnAux sep.data (s.data.length + 1) s.data []).map (fun cs => ⟨cs⟩)

/-- Worker for `pyNoArgSplit`: split at every whitespace character. -/
def splitWsAux : List Char → List Char → List (List Char)
  | [], acc => [acc.reverse]
  | c :: rest, acc =>
    if c.isWhitespace then acc.reverse :: splitWsAux rest []
    else splitWsAux rest (c :: acc)

/-- Model of Python `s.split()` (no argument): split on whitespace runs and
drop the empty pieces. -/
def pyNoArgSplit (s : String) : List String :=
  ((splitWsAux s.data []).map (fun cs => (⟨cs⟩ : String))).filter (fun t => t ≠ ("" : String))

/-- Worker for `pyIn`: does `needle` occur somewhere in the character list? -/
def subAux (needle : List Char) : List Char → Bool
  | [] => needle.isEmpty
  | c :: rest => needle.isPrefixOf (c :: rest) || subAux needle rest

/-- Model of Python `needle in hay` for strings: substring containment. -/
def pyIn (needle hay : String) : Bool :=
  subAux needle.data hay.data

instance instDecEqExcept {ε α : Type} [DecidableEq ε] [DecidableEq α] :
    DecidableEq (Except ε α)
  | .ok x, .ok y =>
    if h : x = y then .isTrue (by rw [h]) else .isFalse (by simp [h])
  | .ok _, .error _ => .isFalse (by simp)
  | .error _, .ok _ => .isFalse (by simp)
  | .error e, .error f =>
    if h : e = f then .isTrue (by rw [h]) else .isFalse (by simp [h])

/-- All characters are decimal digits. -/
def allDigits (s : String) : Bool :=
  s.data.all (fun c => c.isDigit)

/-- Numeric value of a list of decimal digit characters. -/
def digitsToNat (cs : List Char) : Nat :=
  cs.foldl (fun a c => a * 10 + (c.toNat - 48)) 0

/-- Model of Python `float(s)` on the decimal literals this program can meet:
optional surrounding whitespace, optional sign, digits with an optional
fractional part ( `"12"`, `"01.50"`, `"-3."`, `".5"` ).  Exponent, infinity
and NaN forms do not occur in ffprobe/ffmpeg time output and are omitted.
Returns `none` exactly when Python `float` would raise `ValueError`. -/
def pyFloat? (s : String) : Option ℚ :=
  let t := pyStrip s
  let sb : ℚ × String :=
    if pyStartswith t ("-") then (-1, pySlice t 1 t.data.length)
    else if pyStartswith t ("+") then (1, pySlice t 1 t.data.length)
    else (1, t)
  match pySplitOn sb.2 (".") with
  | [ip] =>
    if !ip.data.isEmpty && allDigits ip then
      some (sb.1 * (digitsToNat ip.data : ℚ))
    else none
  | [ip, fp] =>
    if (!ip.data.isEmpty || !fp.data.isEmpty) && allDigits ip && allDigits fp then
      some (sb.1 * ((digitsToNat ip.data : ℚ) +
        (digitsToNat fp.data : ℚ) / (10 : ℚ) ^ fp.data.length))
    else none
  | _ => none

/-- Model of Python `int(x)` on a float/rational: truncation toward zero. -/
def pyInt (q : ℚ) : ℤ :=
  if 0 ≤ q then ⌊q⌋ else ⌈q⌉

/-- Worker for `pyStrLe`. -/
def strLeAux : List Char → List Char → Bool
  | [], _ => true
  | _ :: _, [] => false
  | a :: as, b :: bs =>
    if a = b then strLeAux as bs else decide (a.toNat < b.toNat)

/-- Model of Python `a <= b` on strings: lexicographic comparison by code
point (text comparison, not numeric). -/
def pyStrLe (a b : String) : Bool :=
  strLeAux a.data b.data

/-! ### Models of the `os.path` helpers used by the source -/

/-- The prefix contributed by the directory in `os.path.join(d, f)`. -/
def dirPrefix (d : String) : String :=
  if d = ("" : String) then ("" : String)
  else if pyEndswith d ("/") then d
  else d ++ ("/")

/-- Model of `os.path.join(d, f)` (POSIX, one component): an absolute `f`
replaces `d`; otherwise `f` is appended to `d` with a separator as needed. -/
def ospJoin (d f : String) : String :=
  if pyStartswith f ("/") then f else dirPrefix d ++ f

/-- Model of `x.split(os.path.sep)[-1]` from the sort key of
`group_gopro_files`: the final path component. -/
def baseName (x : String) : String :=
  (pySplitOn x ("/")).getLastD ("")

/-! ### `group_gopro_files` -/

/-- The filter applied to directory entries at line 32 of the source:
`f.endswith('.MP4') and f.startswith('GH')`, case-sensitively. -/
def isGoproFile (f : String) : Bool :=
  pyEndswith f (".MP4") && pyStartswith f ("GH")

/-- `video_number = filename[4:8]` (line 36). -/
def videoNumberOf (filename : String) : String :=
  pySlice filename 4 8

/-- The sort key `lambda x: x.split(os.path.sep)[-1][2:4]` (line 40). -/
def sortKeyOf (x : String) : String :=
  pySlice (baseName x) 2 4

/-- The ordering used by `video_groups[video_number].sort(key=...)`:
ascending by `sortKeyOf` compared as text. -/
def sortLe (a b : String) : Prop :=
  pyStrLe (sortKeyOf a) (sortKeyOf b) = true

instance : DecidableRel sortLe :=
  fun a b => instDecidableEqBool (pyStrLe (sortKeyOf a) (sortKeyOf b)) true

/-- Model of `video_groups[video_number].append(v)` on a `defaultdict(list)`
kept as an insertion-ordered association list: append `v` to the bucket of
`k`, creating the bucket at the end if `k` is new. -/
def addToGroups : List (String × List String) → String → String → List (String × List String)
  | [], k, v => [(k, [v])]
  | (k0, vs) :: rest, k, v =>
    if k0 = k then (k0, vs ++ [v]) :: rest
    else (k0, vs) :: addToGroups rest k v

/-- The grouping loop of lines 35-37: for each filename, append
`os.path.join(input_directory, filename)` to the bucket of `filename[4:8]`. -/
def rawGroups (input_directory : String) (files : List String) : List (String × List String) :=
  files.foldl (fun acc filename =>
    addToGroups acc (videoNumberOf filename) (ospJoin input_directory filename)) []

/-- The sorting loop of lines 39-40: sort each bucket by `sortKeyOf`
(Python `list.sort` is a stable ascending sort; `insertionSort` is too). -/
def sortGroups (gs : List (String × List String)) : List (String × List String) :=
  gs.map (fun g => (g.1, g.2.insertionSort sortLe))

/-- Model of `group_gopro_files` (lines 22-42).  `listing` is the result of
`os.listdir(input_directory)`. -/
def group_gopro_files (input_directory : String) (listing : List String) :
    List (String × List String) :=
  sortGroups (rawGroups input_directory (listing.filter isGoproFile))

/-- Model of `create_output_directory` (lines 7-20): the returned path
(the `os.makedirs` side effect is not observable in the value). -/
def create_output_directory (base_dir : String) (folder_name : String := "processed_videos") :
    String :=
  ospJoin base_dir folder_name

/-! ### `get_video_duration` -/

/-- Observable behaviour of one `ffprobe` invocation: the launch can fail
(missing binary), the process can exit non-zero (both make
`subprocess.check_output` raise), or it prints `s` on stdout. -/
inductive ProbeOutcome
  | launchFail
  | exitNonzero
  | output (s : String)
deriving DecidableEq

/-- The body of the `try` block of `get_video_duration` (lines 46-55):
`float(subprocess.check_output(cmd).decode().strip())`; `.error ()` marks a
raised exception. -/
def probeBody (o : ProbeOutcome) : Except Unit ℚ :=
  match o with
  | .launchFail => .error ()
  | .exitNonzero => .error ()
  | .output s =>
    match pyFloat? (pyStrip s) with
    | none => .error ()
    | some q => .ok q

/-- Model of `get_video_duration` (lines 44-57): the bare `except:` turns any
failure into the value `0`. -/
def get_video_duration (o : ProbeOutcome) : ℚ :=
  match probeBody o with
  | .error _ => 0
  | .ok q => q

/-! ### `merge_videos_fast` -/

/-- `hours, minutes, seconds = map(float, time_str.split(':'))` followed by
`hours * 3600 + minutes * 60 + seconds` (lines 111-112); `none` marks the
`ValueError` Python raises when the unpacking or a `float` call fails. -/
def parseTimeTriple (time_str : String) : Option ℚ :=
  match pySplitOn time_str (":") with
  | [h, m, s] =>
    match pyFloat? h, pyFloat? m, pyFloat? s with
    | some hv, some mv, some sv => some (hv * 3600 + mv * 60 + sv)
    | _, _, _ => none
  | _ => none

/-- Processing of one stderr line (lines 109-112):
`.ok none` = no `time=` marker (line ignored);
`.ok (some e)` = elapsed seconds parsed from
`line.split("time=")[1].split()[0]`;
`.error ()` = an uncaught `IndexError`/`ValueError` while parsing. -/
def lineElapsed (line : String) : Except Unit (Option ℚ) :=
  if pyIn ("time=") line then
    match pySplitOn line ("time=") with
    | _ :: after :: _ =>
      match pyNoArgSplit after with
      | time_str :: _ =>
        match parseTimeTriple time_str with
        | some e => .ok (some e)
        | none => .error ()
      | [] => .error ()
    | _ => .error ()
  else .ok none

/-- The progress read loop of lines 101-117, started with `last_progress`:
returns the progress values passed to `pbar.update` (in order) and whether
the loop was aborted by an exception (in which case the remaining lines are
never read). -/
def progressLoop (total_duration : ℚ) : ℤ → List String → List ℤ × Bool
  | _, [] => ([], false)
  | last_progress, line :: rest =>
    match lineElapsed line with
    | .error _ => ([], true)
    | .ok none => progressLoop total_duration last_progress rest
    | .ok (some current_duration) =>
      let progress := min 100 (pyInt (current_duration / total_duration * 100))
      if last_progress < progress then
        let r := progressLoop total_duration progress rest
        (progress :: r.1, r.2)
      else
        progressLoop total_duration last_progress rest

/-- Observable behaviour of the externals used by one `merge_videos_fast`
call: whether writing the concat list file succeeds, whether `Popen` finds
`ffmpeg`, the lines the process emits on stderr, and its exit code. -/
structure MergeEnv where
  concatWriteOk : Bool
  popenOk : Bool
  stderrLines : List String
  returncode : Int
deriving DecidableEq

/-- Observable outcome of one `merge_videos_fast` call. -/
structure MergeResult where
  /-- whether the intermediate `output_path + '.txt'` file still exists
  when the call returns -/
  concatFileExists : Bool
  /-- the progress percentages emitted, in order -/
  emitted : List ℤ
  /-- whether `process.wait()` was reached -/
  waited : Bool
  /-- whether the outer `except Exception` handler fired -/
  exceptionCaught : Bool
  /-- whether the success message was printed (`returncode == 0`) -/
  success : Bool
deriving DecidableEq

/-- The guarded progress section of lines 99-119: the loop runs only when
`total_duration` is truthy (neither `None` nor `0`); otherwise it is skipped
and nothing is emitted. -/
def mergeLoopResult (env : MergeEnv) (total_duration : Option ℚ) : List ℤ × Bool :=
  match total_duration with
  | none => ([], false)
  | some t => if t = 0 then ([], false) else progressLoop t 0 env.stderrLines

/-- Model of `merge_videos_fast` (lines 65-132).  The whole body is inside
one `try`: a failure to write the concat file, a `Popen` failure, or an
exception in the progress loop jumps to the `except` handler at line 131,
skipping `process.wait()` and `os.remove(concat_file)`.  `total_duration` is
the optional third parameter; Python's truthiness test `if total_duration:`
is false for `None` and for `0`. -/
def merge_videos_fast (env : MergeEnv) (total_duration : Option ℚ) : MergeResult :=
  if env.concatWriteOk = false then
    { concatFileExists := false, emitted := [], waited := false,
      exceptionCaught := true, success := false }
  else if env.popenOk = false then
    { concatFileExists := true, emitted := [], waited := false,
      exceptionCaught := true, success := false }
  else if (mergeLoopResult env total_duration).2 then
    { concatFileExists := true, emitted := (mergeLoopResult env total_duration).1,
      waited := false, exceptionCaught := true, success := false }
  else
    { concatFileExists := false, emitted := (mergeLoopResult env total_duration).1,
      waited := true, exceptionCaught := false, success := env.returncode == 0 }

/-! ### `process_gopro_videos` -/

/-- Observable behaviour of the externals for one batch run. -/
structure BatchEnv where
  /-- `os.listdir(input_directory)` -/
  listing : List String
  /-- the `input_directory` argument -/
  inputDir : String
  /-- behaviour of `ffprobe` on each path -/
  probe : String → ProbeOutcome
  /-- whether `shutil.copy2` from this source path succeeds -/
  copyOk : String → Bool
  /-- behaviour of the externals of `merge_videos_fast`, per output path -/
  mergeEnvOf : String → MergeEnv

/-- One observable action of the batch. -/
inductive BatchEvent
  | merged (output_path : String) (parts : List String) (total_duration : ℚ)
      (result : MergeResult)
  | copied (src dst : String)
  | copyFailed (src dst : String)
deriving DecidableEq

/-- The merge-mode loop of lines 147-160.  For a group with more than one
part, the probed durations are summed and `merge_videos_fast` is invoked
(it never raises).  Otherwise `shutil.copy2(file_paths[0], output_path)` is
executed with no surrounding `try`: a copy failure (or an empty group)
raises and aborts the whole batch, returning `true` in the second
component with no further groups processed. -/
def runMergeGroups (env : BatchEnv) (output_directory : String) :
    List (String × List String) → List BatchEvent × Bool
  | [] => ([], false)
  | (video_number, file_paths) :: rest =>
    let output_path := ospJoin output_directory (video_number ++ (".MP4"))
    if 1 < file_paths.length then
      let total_duration := (file_paths.map (fun p => get_video_duration (env.probe p))).sum
      let ev := BatchEvent.merged output_path file_paths total_duration
        (merge_videos_fast (env.mergeEnvOf output_path) (some total_duration))
      let r := runMergeGroups env output_directory rest
      (ev :: r.1, r.2)
    else
      match file_paths with
      | [] => ([], true)
      | p :: _ =>
        if env.copyOk p then
          let r := runMergeGroups env output_directory rest
          (BatchEvent.copied p output_path :: r.1, r.2)
        else ([], true)

/-- The rename-mode inner loop of lines 163-173, with `part_number` starting
at 1: each copy is inside `try ... except OSError`, so a failure yields a
`copyFailed` event and the loop continues. -/
def renameCopies (env : BatchEnv) (output_directory video_number : String) :
    Nat → List String → List BatchEvent
  | _, [] => []
  | part_number, old_path :: rest =>
    let new_path := ospJoin output_directory
      (video_number ++ ("_") ++ (Nat.repr part_number) ++ (".MP4"))
    (if env.copyOk old_path then BatchEvent.copied old_path new_path
     else BatchEvent.copyFailed old_path new_path) ::
      renameCopies env output_directory video_number (part_number + 1) rest

/-- Model of `process_gopro_videos` (lines 134-173): the events produced, and
whether the run was aborted by an uncaught exception. -/
def process_gopro_videos (env : BatchEnv) (merge_videos : Bool) : List BatchEvent × Bool :=
  let output_directory := create_output_directory env.inputDir
  let video_groups := group_gopro_files env.inputDir env.listing
  if merge_videos then
    runMergeGroups env output_directory video_groups
  else
    (video_groups.flatMap (fun g => renameCopies env output_directory g.1 1 g.2), false)

/-! ### The spec-side filename pattern -/

/-- Modelled from the spec: the naming pattern `GH????*.MP4` of §6 — fixed
prefix `GH`, a 4-character identifier at offset 4 (hence at least 10
characters), extension `.MP4`, case-sensitive.  Used only to state what the
spec says the scan selects; the code's own filter is `isGoproFile`. -/
def specPattern (f : String) : Bool :=
  pyStartswith f ("GH") && decide (10 ≤ f.data.length) && pyEndswith f (".MP4")

/-! ### Concrete environments used by witnesses and counterexamples -/

/-- A merge whose stderr stream carries two well-formed time markers. -/
def envTwoMarkers : MergeEnv :=
  { concatWriteOk := true, popenOk := true,
    stderrLines := [("frame=1 time=00:00:00.50 b=1"), ("frame=2 time=00:00:01.00 b=1")],
    returncode := 0 }

/-- A merge in which `Popen` fails after the concat file was written. -/
def envPopenFail : MergeEnv :=
  { concatWriteOk := true, popenOk := false, stderrLines := [], returncode := 0 }

/-- A merge that runs cleanly and exits non-zero. -/
def envNonzeroExit : MergeEnv :=
  { concatWriteOk := true, popenOk := true, stderrLines := [], returncode := 1 }

/-- A merge whose first stderr line has a malformed `time=` marker (ffmpeg
really prints `time=N/A` when the duration is unknown), followed by a
well-formed one. -/
def envMalformedTime : MergeEnv :=
  { concatWriteOk := true, popenOk := true,
    stderrLines := [("time=N/A bitrate=N/A speed=N/A"), ("frame=2 time=00:00:01.00 b=1")],
    returncode := 0 }

/-- A batch over one single-part group, with all externals succeeding. -/
def envSinglePart : BatchEnv :=
  { listing := [("GH010002.MP4")], inputDir := ("."),
    probe := fun _ => ProbeOutcome.launchFail,
    copyOk := fun _ => true,
    mergeEnvOf := fun _ =>
      { concatWriteOk := true, popenOk := true, stderrLines := [], returncode := 0 } }

/-- A batch over one two-part group, with all externals succeeding. -/
def envTwoPart : BatchEnv :=
  { listing := [("GH010001.MP4"), ("GH020001.MP4")], inputDir := ("."),
    probe := fun _ => ProbeOutcome.output ("10.0"),
    copyOk := fun _ => true,
    mergeEnvOf := fun _ =>
      { concatWriteOk := true, popenOk := true, stderrLines := [], returncode := 0 } }

/-- A batch over two single-part groups whose copies fail. -/
def envCopyFails : BatchEnv :=
  { listing := [("GH010002.MP4"), ("GH010003.MP4")], inputDir := ("."),
    probe := fun _ => ProbeOutcome.launchFail,
    copyOk := fun _ => false,
    mergeEnvOf := fun _ =>
      { concatWriteOk := true, popenOk := true, stderrLines := [], returncode := 0 } }

/-! ## Helper lemmas about `merge_videos_fast` -/

lemma merge_emitted_eq (env : MergeEnv) (td : Option ℚ)
    (hc : env.concatWriteOk = true) (hp : env.popenOk = true) :
    (merge_videos_fast env td).emitted = (mergeLoopResult env td).1 := by
  by_cases h : (mergeLoopResult env td).2 <;> simp [merge_videos_fast, hc, hp, h]

lemma mergeLoopResult_some (env : MergeEnv) (t : ℚ) (ht : t ≠ 0) :
    mergeLoopResult env (some t) = progressLoop t 0 env.stderrLines := by
  simp [mergeLoopResult, ht]

/-! ## C7: the duration probe degrades every failure to 0 -/

/-- C7.  `get_video_duration` always returns a value: on a successful probe
it returns the parsed duration, and on any failure of the external probe
(missing binary, non-zero exit, unparsable output) the bare `except:`
converts the raised exception into the value `0`; nothing propagates to the
caller. -/
theorem c7_probe_failure_yields_zero :
    (∀ o : ProbeOutcome,
      (∃ q : ℚ, probeBody o = .ok q ∧ get_video_duration o = q) ∨
      (probeBody o = .error () ∧ get_video_duration o = 0)) ∧
    get_video_duration ProbeOutcome.launchFail = 0 ∧
    get_video_duration ProbeOutcome.exitNonzero = 0 ∧
    (∀ s : String, pyFloat? (pyStrip s) = none →
      get_video_duration (ProbeOutcome.output s) = 0) := by
  refine ⟨?_, rfl, rfl, ?_⟩
  · intro o
    cases h : probeBody o with
    | error e => cases e; exact Or.inr ⟨rfl, by simp [get_video_duration, h]⟩
    | ok q => exact Or.inl ⟨q, rfl, by simp [get_video_duration, h]⟩
  · intro s hs
    simp [get_video_duration, probeBody, hs]

/-- Witness for C7 at the concrete unparsable ffprobe output `N/A`. -/
theorem c7_witness :
    pyFloat? (pyStrip ("N/A")) = none ∧
    get_video_duration (ProbeOutcome.output ("N/A")) = 0 :=
  ⟨by with_unfolding_all decide,
   c7_probe_failure_yields_zero.2.2.2 ("N/A") (by with_unfolding_all decide)⟩

/-! ## C10: the truthiness guard on `total_duration` -/

/-- C10.  The progress loop (which contains the division by
`total_duration`) runs only under the truthiness guard of line 99: when
`total_duration` is `None` or `0` the loop is skipped entirely, no progress
value is emitted, and (when the earlier steps succeeded) the merge proceeds
directly to `process.wait()` with no exception. -/
theorem c10_division_guard (env : MergeEnv) :
    (merge_videos_fast env none).emitted = [] ∧
    (merge_videos_fast env (some 0)).emitted = [] ∧
    (env.concatWriteOk = true → env.popenOk = true →
      (merge_videos_fast env none).waited = true ∧
      (merge_videos_fast env (some 0)).waited = true ∧
      (merge_videos_fast env none).exceptionCaught = false ∧
      (merge_videos_fast env (some 0)).exceptionCaught = false) := by
  have hn : mergeLoopResult env none = ([], false) := rfl
  have h0 : mergeLoopResult env (some 0) = ([], false) := by simp [mergeLoopResult]
  refine ⟨?_, ?_, ?_⟩
  · by_cases hc : env.concatWriteOk = false
    · simp [merge_videos_fast, hc]
    · by_cases hp : env.popenOk = false <;> simp [merge_videos_fast, hc, hp, hn]
  · by_cases hc : env.concatWriteOk = false
    · simp [merge_videos_fast, hc]
    · by_cases hp : env.popenOk = false <;> simp [merge_videos_fast, hc, hp, h0]
  · intro hc hp
    simp [merge_videos_fast, hc, hp, hn, h0]

/-- Witness for C10: even with a malformed marker in the stream, a `None`
or `0` duration skips the loop and nothing is emitted or raised. -/
theorem c10_witness :
    (merge_videos_fast envMalformedTime none).emitted = [] ∧
    (merge_videos_fast envMalformedTime (some 0)).emitted = [] ∧
    ((merge_videos_fast envMalformedTime none).waited = true ∧
     (merge_videos_fast envMalformedTime (some 0)).waited = true ∧
     (merge_videos_fast envMalformedTime none).exceptionCaught = false ∧
     (merge_videos_fast envMalformedTime (some 0)).exceptionCaught = false) :=
  ⟨(c10_division_guard envMalformedTime).1,
   (c10_division_guard envMalformedTime).2.1,
   (c10_division_guard envMalformedTime).2.2 rfl rfl⟩

/-! ## C4: removal of the intermediate concat file -/

/-- Counterexample to C4 as stated.  The claim says the plan artifact is
removed on all exit paths; but when `Popen` fails after the concat file was
written (e.g. `ffmpeg` missing), the exception jumps over
`os.remove(concat_file)` and the artifact remains on disk. -/
theorem c4_counterexample :
    (merge_videos_fast envPopenFail none).exceptionCaught = true ∧
    (merge_videos_fast envPopenFail none).concatFileExists = true := by
  with_unfolding_all decide

/-- C4 as amended.  The concat file is removed exactly on the non-exceptional
paths: whenever the merge reaches `process.wait()` (exit code 0 or not), the
artifact is gone; but if an exception aborts the attempt after the artifact
was written, the artifact is still on disk when the call returns. -/
theorem c4_artifact_amended (env : MergeEnv) (td : Option ℚ) :
    ((merge_videos_fast env td).waited = true →
      (merge_videos_fast env td).concatFileExists = false) ∧
    (env.concatWriteOk = true → (merge_videos_fast env td).exceptionCaught = true →
      (merge_videos_fast env td).concatFileExists = true) := by
  constructor
  · intro hw
    by_cases hc : env.concatWriteOk = false
    · simp [merge_videos_fast, hc] at hw ⊢
    · by_cases hp : env.popenOk = false
      · simp [merge_videos_fast, hc, hp] at hw ⊢
      · by_cases hl : (mergeLoopResult env td).2 <;>
          simp [merge_videos_fast, hc, hp, hl] at hw ⊢
  · intro hc he
    by_cases hp : env.popenOk = false
    · simp [merge_videos_fast, hc, hp]
    · by_cases hl : (mergeLoopResult env td).2 <;>
        simp [merge_videos_fast, hc, hp, hl] at he ⊢

/-- Witness for the amended C4: a non-zero-exit merge still removes the
artifact, and a `Popen` failure leaves it behind. -/
theorem c4_amended_witness :
    (merge_videos_fast envNonzeroExit none).concatFileExists = false ∧
    (merge_videos_fast envPopenFail none).concatFileExists = true :=
  ⟨(c4_artifact_amended envNonzeroExit none).1 (by with_unfolding_all decide),
   (c4_artifact_amended envPopenFail none).2 rfl (by with_unfolding_all decide)⟩

/-! ## C5: malformed time markers -/

/-- Counterexample to C5 as stated.  The claim says a malformed `time=`
value is skipped and the merge goes on to read the remaining lines, wait and
clean up.  On `envMalformedTime` (first line `time=N/A ...`, second line
well-formed) the code instead aborts the read loop — the second line is
never parsed (nothing is emitted), `process.wait()` is skipped, and the
concat file is left on disk. -/
theorem c5_counterexample :
    (merge_videos_fast envMalformedTime (some 1)).emitted = [] ∧
    (merge_videos_fast envMalformedTime (some 1)).waited = false ∧
    (merge_videos_fast envMalformedTime (some 1)).concatFileExists = true ∧
    (merge_videos_fast envMalformedTime (some 1)).exceptionCaught = true := by
  with_unfolding_all decide

/-- C5 as amended.  A diagnostic line whose `time=` value is malformed makes
the parse raise; the exception lands in the function's outer handler, so the
read loop stops at that line (no later line is processed), the process is
not waited on and the concat file is not removed — though the
`merge_videos_fast` call itself still returns normally to its caller. -/
theorem c5_malformed_aborts_loop (t : ℚ) (last : ℤ) (badLine : String) (rest : List String)
    (hbad : lineElapsed badLine = .error ()) :
    progressLoop t last (badLine :: rest) = ([], true) ∧
    (∀ env : MergeEnv, env.concatWriteOk = true → env.popenOk = true →
      ∀ t2 : ℚ, t2 ≠ 0 → (progressLoop t2 0 env.stderrLines).2 = true →
        (merge_videos_fast env (some t2)).waited = false ∧
        (merge_videos_fast env (some t2)).concatFileExists = true ∧
        (merge_videos_fast env (some t2)).exceptionCaught = true) := by
  constructor
  · simp [progressLoop, hbad]
  · intro env hc hp t2 ht2 habort
    have hl : (mergeLoopResult env (some t2)).2 = true := by
      rw [mergeLoopResult_some env t2 ht2]; exact habort
    simp [merge_videos_fast, hc, hp, hl]

/-- Witness for the amended C5 at the concrete malformed marker
`time=N/A`. -/
theorem c5_amended_witness :
    progressLoop 1 0 envMalformedTime.stderrLines = ([], true) ∧
    ((merge_videos_fast envMalformedTime (some 1)).waited = false ∧
     (merge_videos_fast envMalformedTime (some 1)).concatFileExists = true ∧
     (merge_videos_fast envMalformedTime (some 1)).exceptionCaught = true) :=
  ⟨(c5_malformed_aborts_loop 1 0 ("time=N/A bitrate=N/A speed=N/A")
      [("frame=2 time=00:00:01.00 b=1")] (by with_unfolding_all decide)).1,
   (c5_malformed_aborts_loop 1 0 ("time=N/A bitrate=N/A speed=N/A")
      [("frame=2 time=00:00:01.00 b=1")] (by with_unfolding_all decide)).2
     envMalformedTime rfl rfl 1 (by norm_num) (by with_unfolding_all decide)⟩

/-! ## C1: monotone bounded progress -/

lemma pyInt_eq_floor_of_pos {q : ℚ} (h : 0 < pyInt q) : pyInt q = ⌊q⌋ := by
  by_cases h0 : 0 ≤ q
  · simp [pyInt, h0]
  · exfalso
    have hq : q ≤ 0 := le_of_lt (lt_of_not_ge h0)
    have hle : pyInt q ≤ 0 := by
      simp only [pyInt, if_neg h0]
      exact Int.ceil_le.mpr (by exact_mod_cast hq)
    omega

lemma progressLoop_chain (t : ℚ) (lines : List String) :
    ∀ last : ℤ, List.Chain' (fun a b : ℤ => a < b) (last :: (progressLoop t last lines).1) := by
  induction lines with
  | nil => intro last; simp [progressLoop]
  | cons line rest ih =>
    intro last
    simp only [progressLoop]
    cases hl : lineElapsed line with
    | error e => simp
    | ok oe =>
      cases oe with
      | none => exact ih last
      | some e =>
        dsimp only
        by_cases hlt : last < min 100 (pyInt (e / t * 100))
        · rw [if_pos hlt]
          exact List.chain'_cons.mpr ⟨hlt, ih _⟩
        · rw [if_neg hlt]
          exact ih last

lemma progressLoop_mem (t : ℚ) (lines : List String) :
    ∀ (last p : ℤ), p ∈ (progressLoop t last lines).1 →
      last < p ∧ p ≤ 100 ∧ ∃ line ∈ lines, ∃ e : ℚ,
        lineElapsed line = .ok (some e) ∧ p = min 100 (pyInt (e / t * 100)) := by
  induction lines with
  | nil => intro last p hp; simp [progressLoop] at hp
  | cons line rest ih =>
    intro last p hp
    simp only [progressLoop] at hp
    cases hl : lineElapsed line with
    | error e => rw [hl] at hp; simp at hp
    | ok oe =>
      cases oe with
      | none =>
        rw [hl] at hp
        obtain ⟨h1, h2, line2, hline2, e2, he2, hpe⟩ := ih last p hp
        exact ⟨h1, h2, line2, List.mem_cons_of_mem _ hline2, e2, he2, hpe⟩
      | some e =>
        rw [hl] at hp
        dsimp only at hp
        by_cases hlt : last < min 100 (pyInt (e / t * 100))
        · rw [if_pos hlt] at hp
          rcases List.mem_cons.mp hp with hpe | hptail
          · exact ⟨hpe ▸ hlt, hpe ▸ min_le_left 100 _,
              line, List.mem_cons_self line rest, e, hl, hpe⟩
          · obtain ⟨h1, h2, line2, hline2, e2, he2, hpe2⟩ := ih _ p hptail
            exact ⟨lt_trans hlt h1, h2, line2, List.mem_cons_of_mem _ hline2, e2, he2, hpe2⟩
        · rw [if_neg hlt] at hp
          obtain ⟨h1, h2, line2, hline2, e2, he2, hpe2⟩ := ih last p hp
          exact ⟨h1, h2, line2, List.mem_cons_of_mem _ hline2, e2, he2, hpe2⟩

/-- C1.  During a merge with a supplied `total_duration > 0`, the emitted
progress sequence is strictly increasing (hence never repeats a value twice
in a row), every value lies in `[0, 100]`, and every emitted value is
`min 100 ⌊elapsed / total_duration * 100⌋` for the elapsed seconds parsed
from the `time=HH:MM:SS[.fraction]` marker of one of the stream's lines. -/
theorem c1_progress_monotone (env : MergeEnv) (t : ℚ) (ht : 0 < t) :
    List.Chain' (fun a b : ℤ => a < b) (merge_videos_fast env (some t)).emitted ∧
    ∀ p ∈ (merge_videos_fast env (some t)).emitted,
      0 ≤ p ∧ p ≤ 100 ∧ ∃ line ∈ env.stderrLines, ∃ e : ℚ,
        lineElapsed line = .ok (some e) ∧ p = min 100 ⌊e / t * 100⌋ := by
  by_cases hc : env.concatWriteOk = false
  · simp [merge_videos_fast, hc]
  · by_cases hp : env.popenOk = false
    · simp [merge_videos_fast, hc, hp]
    · have hc1 : env.concatWriteOk = true := by simpa using hc
      have hp1 : env.popenOk = true := by simpa using hp
      rw [merge_emitted_eq env (some t) hc1 hp1, mergeLoopResult_some env t (ne_of_gt ht)]
      constructor
      · exact (progressLoop_chain t env.stderrLines 0).tail
      · intro p hpmem
        obtain ⟨h1, h2, line, hline, e, he, hpe⟩ :=
          progressLoop_mem t env.stderrLines 0 p hpmem
        have hpos : 0 < pyInt (e / t * 100) := by
          rcases lt_min_iff.mp (hpe ▸ h1) with ⟨-, h⟩
          exact h
        exact ⟨le_of_lt h1, h2, line, hline, e, he,
          by rw [hpe, pyInt_eq_floor_of_pos hpos]⟩

/-- Witness for C1: two well-formed markers at elapsed 0.5s and 1s with
total duration 1 emit exactly the increasing sequence 50, 100. -/
theorem c1_witness :
    0 < (1 : ℚ) ∧
    (List.Chain' (fun a b : ℤ => a < b) (merge_videos_fast envTwoMarkers (some 1)).emitted ∧
     ∀ p ∈ (merge_videos_fast envTwoMarkers (some 1)).emitted,
       0 ≤ p ∧ p ≤ 100 ∧ ∃ line ∈ envTwoMarkers.stderrLines, ∃ e : ℚ,
         lineElapsed line = .ok (some e) ∧ p = min 100 ⌊e / 1 * 100⌋) :=
  ⟨by norm_num, c1_progress_monotone envTwoMarkers 1 (by norm_num)⟩

/-! ## C8: the directory filter -/

/-- Counterexample to C8 as stated.  The claim says the scan selects exactly
the names of shape `GH????*.MP4` and that names too short to contain a
4-character identifier at offset 4 are excluded.  But the code's filter is
only `endswith('.MP4') and startswith('GH')`: the 6-character name `GH.MP4`
does not match the pattern, yet it is selected and grouped (under the
2-character slice `P4`). -/
theorem c8_counterexample :
    specPattern ("GH.MP4") = false ∧
    group_gopro_files (".") [("GH.MP4")] = [(("P4"), [("./GH.MP4")])] := by
  decide

/-- C8 as amended.  The scan selects exactly the directory entries with
prefix `GH` and suffix `.MP4`, compared case-sensitively; no length or
identifier-shape condition is checked, so shorter names are selected too. -/
theorem c8_filter_amended (listing : List String) (f : String) :
    f ∈ listing.filter isGoproFile ↔
      f ∈ listing ∧ pyEndswith f (".MP4") = true ∧ pyStartswith f ("GH") = true := by
  rw [List.mem_filter]
  simp [isGoproFile, Bool.and_eq_true]

/-! ## C3: parts sorted by the text part-order key -/

lemma strLeAux_total : ∀ as bs : List Char, strLeAux as bs = true ∨ strLeAux bs as = true
  | [], _ => Or.inl rfl
  | _ :: _, [] => Or.inr rfl
  | a :: as, b :: bs => by
    by_cases hab : a = b
    · subst hab
      rcases strLeAux_total as bs with h | h
      · exact Or.inl (by simp [strLeAux, h])
      · exact Or.inr (by simp [strLeAux, h])
    · have hne : a.toNat ≠ b.toNat := fun hh => hab (Char.ext (UInt32.toNat.inj hh))
      simp only [strLeAux, if_neg hab, if_neg (Ne.symm hab)]
      rcases Nat.lt_or_ge a.toNat b.toNat with h | h
      · exact Or.inl (by simp [h])
      · have hlt : b.toNat < a.toNat := lt_of_le_of_ne h (Ne.symm hne)
        exact Or.inr (by simp [hlt])

lemma strLeAux_trans : ∀ as bs cs : List Char,
    strLeAux as bs = true → strLeAux bs cs = true → strLeAux as cs = true
  | [], _, _, _, _ => rfl
  | _ :: _, [], _, h1, _ => by simp [strLeAux] at h1
  | _ :: _, _ :: _, [], _, h2 => by simp [strLeAux] at h2
  | a :: as, b :: bs, c :: cs, h1, h2 => by
    simp only [strLeAux] at h1 h2 ⊢
    by_cases hab : a = b
    · subst hab
      rw [if_pos rfl] at h1
      by_cases hac : a = c
      · subst hac
        rw [if_pos rfl] at h2 ⊢
        exact strLeAux_trans as bs cs h1 h2
      · rw [if_neg hac] at h2 ⊢
        exact h2
    · rw [if_neg hab] at h1
      by_cases hbc : b = c
      · subst hbc
        rw [if_neg hab]
        exact h1
      · rw [if_neg hbc] at h2
        have hA : a.toNat < b.toNat := of_decide_eq_true h1
        have hB : b.toNat < c.toNat := of_decide_eq_true h2
        have hac : a ≠ c := fun hh => by subst hh; omega
        rw [if_neg hac]
        exact decide_eq_true (by omega)

lemma sortLe_total : ∀ a b : String, sortLe a b ∨ sortLe b a :=
  fun a b => strLeAux_total (sortKeyOf a).data (sortKeyOf b).data

lemma sortLe_trans : ∀ a b c : String, sortLe a b → sortLe b c → sortLe a c :=
  fun _ _ _ h1 h2 => strLeAux_trans _ _ _ h1 h2

lemma sortGroups_sorted (gs : List (String × List String)) :
    ∀ g ∈ sortGroups gs, List.Pairwise sortLe g.2 := by
  intro g hg
  rcases List.mem_map.mp hg with ⟨g0, _, rfl⟩
  exact @List.sorted_insertionSort String sortLe _ ⟨sortLe_total⟩ ⟨sortLe_trans⟩ g0.2

/-- C3.  Every group produced by `group_gopro_files` lists its part files in
ascending order of the part-order key — the 2-character slice at offset 2 of
the base filename — compared as text (`sortLe` is built on `pyStrLe`, plain
lexicographic comparison by code point); and the result is a function of the
directory listing alone, so repeated calls on an identical listing return
identical ordered sequences. -/
theorem c3_parts_sorted (input_directory : String) (listing : List String) :
    (∀ g ∈ group_gopro_files input_directory listing, List.Pairwise sortLe g.2) ∧
    (∀ listing2, listing2 = listing →
      group_gopro_files input_directory listing2 =
        group_gopro_files input_directory listing) := by
  constructor
  · intro g hg
    exact sortGroups_sorted _ g hg
  · intro listing2 h
    rw [h]

/-- Witness for C3: a listing given out of order comes back sorted by the
part keys `01 < 02` within the group `0001`. -/
theorem c3_witness :
    (("0001"), [("./GH010001.MP4"), ("./GH020001.MP4")]) ∈
      group_gopro_files (".") [("GH020001.MP4"), ("GH010001.MP4")] ∧
    List.Pairwise sortLe [("./GH010001.MP4"), ("./GH020001.MP4")] :=
  ⟨by decide,
   (c3_parts_sorted (".") [("GH020001.MP4"), ("GH010001.MP4")]).1
     (("0001"), [("./GH010001.MP4"), ("./GH020001.MP4")]) (by decide)⟩

/-! ## C2: grouping is a partition keyed by the identifier slice -/

lemma string_append_left_cancel {a b c : String} (h : a ++ b = a ++ c) : b = c := by
  apply String.ext
  have hd : (a ++ b).data = (a ++ c).data := by rw [h]
  rw [String.data_append, String.data_append] at hd
  exact List.append_cancel_left hd

lemma isPrefixOf_two {a b : Char} :
    ∀ {cs : List Char}, ([a, b]).isPrefixOf cs = true → ∃ t, cs = a :: b :: t := by
  intro cs h
  match cs, h with
  | [], h => simp [List.isPrefixOf] at h
  | [c], h => simp [List.isPrefixOf] at h
  | c :: d :: t, h =>
    simp [List.isPrefixOf] at h
    exact ⟨t, by rw [h.1, h.2]⟩

lemma startswith_GH_shape {f : String} (h : pyStartswith f ("GH") = true) :
    ∃ t, f.data = 'G' :: 'H' :: t := by
  have h2 : ([('G' : Char), 'H']).isPrefixOf f.data = true := h
  exact isPrefixOf_two h2

lemma GH_not_slash {f : String} (h : pyStartswith f ("GH") = true) :
    pyStartswith f ("/") = false := by
  obtain ⟨t, ht⟩ := startswith_GH_shape h
  show ("/").data.isPrefixOf f.data = false
  rw [ht]
  rfl

lemma ospJoin_of_GH {d f : String} (h : pyStartswith f ("GH") = true) :
    ospJoin d f = dirPrefix d ++ f := by
  simp [ospJoin, GH_not_slash h]

lemma ospJoin_inj_GH {d f1 f2 : String} (h1 : pyStartswith f1 ("GH") = true)
    (h2 : pyStartswith f2 ("GH") = true) (h : ospJoin d f1 = ospJoin d f2) : f1 = f2 := by
  rw [ospJoin_of_GH h1, ospJoin_of_GH h2] at h
  exact string_append_left_cancel h

lemma specPattern_GH {f : String} (h : specPattern f = true) :
    pyStartswith f ("GH") = true := by
  simp only [specPattern, Bool.and_eq_true] at h
  exact h.1.1

lemma specPattern_isGopro {f : String} (h : specPattern f = true) : isGoproFile f = true := by
  simp only [specPattern, Bool.and_eq_true] at h
  simp [isGoproFile, Bool.and_eq_true, h.1.1, h.2]

lemma paths_nodup {d : String} {listing : List String} (hnd : listing.Nodup)
    (hGH : ∀ f ∈ listing, pyStartswith f ("GH") = true) :
    (listing.map (ospJoin d)).Nodup :=
  List.Nodup.map_on (fun x hx y hy hxy => ospJoin_inj_GH (hGH x hx) (hGH y hy) hxy) hnd

lemma addToGroups_flatMap_perm (gs : List (String × List String)) (k v : String) :
    ((addToGroups gs k v).flatMap Prod.snd).Perm (v :: gs.flatMap Prod.snd) := by
  induction gs with
  | nil => simp [addToGroups]
  | cons g0 rest ih =>
    obtain ⟨k0, vs⟩ := g0
    by_cases h : k0 = k
    · simp only [addToGroups, if_pos h, List.flatMap_cons]
      rw [List.append_assoc]
      exact List.perm_middle
    · simp only [addToGroups, if_neg h, List.flatMap_cons]
      exact ((ih.append_left vs).trans List.perm_middle)

lemma groupsFold_flatMap_perm (d : String) :
    ∀ (files : List String) (acc : List (String × List String)),
      (((files.foldl (fun a f => addToGroups a (videoNumberOf f) (ospJoin d f)) acc).flatMap
          Prod.snd)).Perm (acc.flatMap Prod.snd ++ files.map (ospJoin d)) := by
  intro files
  induction files with
  | nil => intro acc; simp
  | cons f fs ih =>
    intro acc
    simp only [List.foldl_cons, List.map_cons]
    refine (ih _).trans ?_
    refine ((addToGroups_flatMap_perm acc _ _).append_right _).trans ?_
    exact List.perm_middle.symm

lemma addToGroups_origin {S : String → String → Prop} :
    ∀ (gs : List (String × List String)) (k v : String),
      (∀ g ∈ gs, ∀ x ∈ g.2, S g.1 x) → S k v →
      ∀ g ∈ addToGroups gs k v, ∀ x ∈ g.2, S g.1 x := by
  intro gs
  induction gs with
  | nil =>
    intro k v _ hv g hg x hx
    simp only [addToGroups, List.mem_singleton] at hg
    subst hg
    simp only [List.mem_singleton] at hx
    subst hx
    exact hv
  | cons g0 rest ih =>
    intro k v hall hv g hg x hx
    obtain ⟨k0, vs⟩ := g0
    by_cases h : k0 = k
    · rw [addToGroups, if_pos h] at hg
      rcases List.mem_cons.mp hg with rfl | hgr
      · rcases List.mem_append.mp hx with hxv | hxv
        · exact hall (k0, vs) (List.mem_cons_self _ _) x hxv
        · simp only [List.mem_singleton] at hxv
          subst hxv
          exact h ▸ hv
      · exact hall _ (List.mem_cons_of_mem _ hgr) x hx
    · rw [addToGroups, if_neg h] at hg
      rcases List.mem_cons.mp hg with rfl | hgr
      · exact hall _ (List.mem_cons_self _ _) x hx
      · exact ih k v (fun g2 hg2 => hall g2 (List.mem_cons_of_mem _ hg2)) hv g hgr x hx

lemma groupsFold_origin (d : String) (L : List String) :
    ∀ (files : List String) (acc : List (String × List String)), (∀ f ∈ files, f ∈ L) →
      (∀ g ∈ acc, ∀ x ∈ g.2, ∃ f, f ∈ L ∧ videoNumberOf f = g.1 ∧ x = ospJoin d f) →
      ∀ g ∈ files.foldl (fun a f => addToGroups a (videoNumberOf f) (ospJoin d f)) acc,
        ∀ x ∈ g.2, ∃ f, f ∈ L ∧ videoNumberOf f = g.1 ∧ x = ospJoin d f := by
  intro files
  induction files with
  | nil => intro acc _ hacc; simpa using hacc
  | cons f fs ih =>
    intro acc hf hacc
    simp only [List.foldl_cons]
    refine ih _ (fun f2 h2 => hf f2 (List.mem_cons_of_mem _ h2)) ?_
    exact @addToGroups_origin
      (fun k x => ∃ f2, f2 ∈ L ∧ videoNumberOf f2 = k ∧ x = ospJoin d f2)
      acc _ _ hacc ⟨f, hf f (List.mem_cons_self _ _), rfl, rfl⟩

lemma addToGroups_mem_new : ∀ (gs : List (String × List String)) (k v : String),
    ∃ g ∈ addToGroups gs k v, g.1 = k ∧ v ∈ g.2
  | [], k, v => ⟨(k, [v]), by simp [addToGroups]⟩
  | (k0, vs) :: rest, k, v => by
    by_cases h : k0 = k
    · exact ⟨(k0, vs ++ [v]), by simp [addToGroups, h], h, by simp⟩
    · obtain ⟨g, hg, hk, hv⟩ := addToGroups_mem_new rest k v
      exact ⟨g, by rw [addToGroups, if_neg h]; exact List.mem_cons_of_mem _ hg, hk, hv⟩

lemma addToGroups_mem_old :
    ∀ (gs : List (String × List String)) (k v : String) (g), g ∈ gs →
      ∃ g2 ∈ addToGroups gs k v, g2.1 = g.1 ∧ ∀ x ∈ g.2, x ∈ g2.2 := by
  intro gs
  induction gs with
  | nil => intro k v g hg; simp at hg
  | cons g0 rest ih =>
    intro k v g hg
    obtain ⟨k0, vs⟩ := g0
    by_cases h : k0 = k
    · rcases List.mem_cons.mp hg with rfl | hgr
      · exact ⟨(k0, vs ++ [v]), by simp [addToGroups, h], rfl,
          fun x hx => List.mem_append.mpr (Or.inl hx)⟩
      · exact ⟨g, by rw [addToGroups, if_pos h]; exact List.mem_cons_of_mem _ hgr,
          rfl, fun x hx => hx⟩
    · rcases List.mem_cons.mp hg with rfl | hgr
      · exact ⟨(k0, vs), by rw [addToGroups, if_neg h]; exact List.mem_cons_self _ _,
          rfl, fun x hx => hx⟩
      · obtain ⟨g2, hg2, hk2, hsub⟩ := ih k v g hgr
        exact ⟨g2, by rw [addToGroups, if_neg h]; exact List.mem_cons_of_mem _ hg2, hk2, hsub⟩

lemma groupsFold_persist (d : String) :
    ∀ (files : List String) (acc : List (String × List String)) (g), g ∈ acc →
      ∃ g2 ∈ files.foldl (fun a f => addToGroups a (videoNumberOf f) (ospJoin d f)) acc,
        g2.1 = g.1 ∧ ∀ x ∈ g.2, x ∈ g2.2 := by
  intro files
  induction files with
  | nil => intro acc g hg; exact ⟨g, hg, rfl, fun x hx => hx⟩
  | cons f fs ih =>
    intro acc g hg
    simp only [List.foldl_cons]
    obtain ⟨g1, hg1, hk1, hsub1⟩ := addToGroups_mem_old acc _ _ g hg
    obtain ⟨g2, hg2, hk2, hsub2⟩ := ih _ g1 hg1
    exact ⟨g2, hg2, hk2.trans hk1, fun x hx => hsub2 x (hsub1 x hx)⟩

lemma groupsFold_mem_of (d : String) :
    ∀ (files : List String) (acc : List (String × List String)) (f), f ∈ files →
      ∃ g ∈ files.foldl (fun a f2 => addToGroups a (videoNumberOf f2) (ospJoin d f2)) acc,
        g.1 = videoNumberOf f ∧ ospJoin d f ∈ g.2 := by
  intro files
  induction files with
  | nil => intro acc f hf; simp at hf
  | cons f0 fs ih =>
    intro acc f hf
    simp only [List.foldl_cons]
    rcases List.mem_cons.mp hf with rfl | hfr
    · obtain ⟨g1, hg1, hk1, hv1⟩ := addToGroups_mem_new acc (videoNumberOf f) (ospJoin d f)
      obtain ⟨g2, hg2, hk2, hsub2⟩ := groupsFold_persist d fs _ g1 hg1
      exact ⟨g2, hg2, hk2.trans hk1, hsub2 _ hv1⟩
    · exact ih _ f hfr

lemma addToGroups_keys : ∀ (gs : List (String × List String)) (k v : String),
    (addToGroups gs k v).map Prod.fst =
      if k ∈ gs.map Prod.fst then gs.map Prod.fst else gs.map Prod.fst ++ [k] := by
  intro gs
  induction gs with
  | nil => intro k v; simp [addToGroups]
  | cons g0 rest ih =>
    intro k v
    obtain ⟨k0, vs⟩ := g0
    by_cases h : k0 = k
    · simp [addToGroups, h]
    · rw [addToGroups, if_neg h]
      simp only [List.map_cons]
      rw [ih k v]
      by_cases hk : k ∈ rest.map Prod.fst
      · rw [if_pos hk, if_pos (by simp [hk])]
      · rw [if_neg hk, if_neg (by simp [hk, Ne.symm h])]
        rfl

lemma addToGroups_keys_nodup (gs : List (String × List String)) (k v : String)
    (h : (gs.map Prod.fst).Nodup) : ((addToGroups gs k v).map Prod.fst).Nodup := by
  rw [addToGroups_keys]
  by_cases hk : k ∈ gs.map Prod.fst
  · rw [if_pos hk]; exact h
  · rw [if_neg hk]
    simp [List.nodup_append, h, List.disjoint_singleton, hk]

lemma groupsFold_keys_nodup (d : String) :
    ∀ (files : List String) (acc : List (String × List String)),
      ((acc.map Prod.fst).Nodup) →
      (((files.foldl (fun a f => addToGroups a (videoNumberOf f) (ospJoin d f)) acc).map
          Prod.fst)).Nodup := by
  intro files
  induction files with
  | nil => intro acc h; simpa using h
  | cons f fs ih =>
    intro acc h
    simp only [List.foldl_cons]
    exact ih _ (addToGroups_keys_nodup acc _ _ h)

lemma addToGroups_ne_nil : ∀ (gs : List (String × List String)) (k v : String),
    (∀ g ∈ gs, g.2 ≠ []) → ∀ g ∈ addToGroups gs k v, g.2 ≠ [] := by
  intro gs
  induction gs with
  | nil =>
    intro k v _ g hg
    simp only [addToGroups, List.mem_singleton] at hg
    subst hg
    simp
  | cons g0 rest ih =>
    intro k v hall g hg
    obtain ⟨k0, vs⟩ := g0
    by_cases h : k0 = k
    · rw [addToGroups, if_pos h] at hg
      rcases List.mem_cons.mp hg with rfl | hgr
      · simp
      · exact hall _ (List.mem_cons_of_mem _ hgr)
    · rw [addToGroups, if_neg h] at hg
      rcases List.mem_cons.mp hg with rfl | hgr
      · exact hall _ (List.mem_cons_self _ _)
      · exact ih k v (fun g2 hg2 => hall g2 (List.mem_cons_of_mem _ hg2)) g hgr

lemma groupsFold_ne_nil (d : String) :
    ∀ (files : List String) (acc : List (String × List String)),
      (∀ g ∈ acc, g.2 ≠ []) →
      ∀ g ∈ files.foldl (fun a f => addToGroups a (videoNumberOf f) (ospJoin d f)) acc,
        g.2 ≠ [] := by
  intro files
  induction files with
  | nil => intro acc h; simpa using h
  | cons f fs ih =>
    intro acc h
    simp only [List.foldl_cons]
    exact ih _ (addToGroups_ne_nil acc _ _ h)

lemma sortGroups_flatMap_perm (gs : List (String × List String)) :
    ((sortGroups gs).flatMap Prod.snd).Perm (gs.flatMap Prod.snd) := by
  induction gs with
  | nil => simp [sortGroups]
  | cons g rest ih =>
    simp only [sortGroups, List.map_cons, List.flatMap_cons] at ih ⊢
    exact (List.perm_insertionSort sortLe g.2).append ih

lemma eq_of_keys_nodup : ∀ (gs : List (String × List String)),
    ((gs.map Prod.fst).Nodup) → ∀ g1 ∈ gs, ∀ g2 ∈ gs, g1.1 = g2.1 → g1 = g2 := by
  intro gs
  induction gs with
  | nil => intro _ g1 h1; simp at h1
  | cons g rest ih =>
    intro hnd g1 h1 g2 h2 hk
    simp only [List.map_cons, List.nodup_cons] at hnd
    obtain ⟨hgnot, hrest⟩ := hnd
    rcases List.mem_cons.mp h1 with rfl | h1r
    · rcases List.mem_cons.mp h2 with rfl | h2r
      · rfl
      · exfalso; apply hgnot; rw [hk]; exact List.mem_map_of_mem Prod.fst h2r
    · rcases List.mem_cons.mp h2 with rfl | h2r
      · exfalso; apply hgnot; rw [← hk]; exact List.mem_map_of_mem Prod.fst h1r
      · exact ih hrest g1 h1r g2 h2r hk

lemma countP_eq_one_of_count_flatMap (v : String) :
    ∀ gs : List (String × List String), (gs.flatMap Prod.snd).count v = 1 →
      gs.countP (fun g => decide (v ∈ g.2)) = 1 := by
  intro gs
  induction gs with
  | nil => intro h; simp at h
  | cons g rest ih =>
    intro h
    rw [List.flatMap_cons, List.count_append] at h
    rw [List.countP_cons]
    by_cases hv : v ∈ g.2
    · have hc1 : 0 < List.count v g.2 := List.count_pos_iff.mpr hv
      have hr0 : (rest.flatMap Prod.snd).count v = 0 := by omega
      have hrest : rest.countP (fun g2 => decide (v ∈ g2.2)) = 0 := by
        rw [List.countP_eq_zero]
        intro g2 hg2 hmem
        have hpos : 0 < (rest.flatMap Prod.snd).count v :=
          List.count_pos_iff.mpr (List.mem_flatMap.mpr ⟨g2, hg2, of_decide_eq_true hmem⟩)
        omega
      simp [hrest, hv]
    · have hg0 : List.count v g.2 = 0 := List.count_eq_zero.mpr hv
      have h1 : (rest.flatMap Prod.snd).count v = 1 := by omega
      simp [hv, ih h1]

lemma group_flatMap_perm (d : String) (listing : List String) :
    (((group_gopro_files d listing).flatMap Prod.snd)).Perm
      ((listing.filter isGoproFile).map (ospJoin d)) := by
  refine (sortGroups_flatMap_perm _).trans ?_
  have h := groupsFold_flatMap_perm d (listing.filter isGoproFile) []
  simpa [rawGroups] using h

lemma group_origin (d : String) (listing : List String) :
    ∀ g ∈ group_gopro_files d listing, ∀ x ∈ g.2,
      ∃ f, f ∈ listing.filter isGoproFile ∧ videoNumberOf f = g.1 ∧ x = ospJoin d f := by
  intro g hg x hx
  rcases List.mem_map.mp hg with ⟨g0, hg0, rfl⟩
  have hx0 : x ∈ g0.2 := (List.perm_insertionSort sortLe g0.2).mem_iff.mp hx
  exact groupsFold_origin d (listing.filter isGoproFile) (listing.filter isGoproFile) []
    (fun f hf => hf) (by simp) g0 hg0 x hx0

lemma group_mem_of (d : String) (listing : List String) {f : String}
    (hf : f ∈ listing.filter isGoproFile) :
    ∃ g ∈ group_gopro_files d listing, g.1 = videoNumberOf f ∧ ospJoin d f ∈ g.2 := by
  obtain ⟨g0, hg0, hk, hmem⟩ := groupsFold_mem_of d (listing.filter isGoproFile) [] f hf
  refine ⟨(g0.1, g0.2.insertionSort sortLe), List.mem_map_of_mem _ hg0, hk, ?_⟩
  exact (List.perm_insertionSort sortLe g0.2).mem_iff.mpr hmem

lemma group_keys_nodup (d : String) (listing : List String) :
    (((group_gopro_files d listing).map Prod.fst)).Nodup := by
  have h := groupsFold_keys_nodup d (listing.filter isGoproFile) [] (by simp)
  have heq : (group_gopro_files d listing).map Prod.fst =
      (rawGroups d (listing.filter isGoproFile)).map Prod.fst := by
    simp [group_gopro_files, sortGroups, List.map_map]
  rw [heq]
  simpa [rawGroups] using h

lemma group_ne_nil (d : String) (listing : List String) :
    ∀ g ∈ group_gopro_files d listing, g.2 ≠ [] := by
  intro g hg
  rcases List.mem_map.mp hg with ⟨g0, hg0, rfl⟩
  have h0 : g0.2 ≠ [] := groupsFold_ne_nil d (listing.filter isGoproFile) [] (by simp) g0 hg0
  intro hcon
  apply h0
  have hcon2 : List.insertionSort sortLe g0.2 = [] := hcon
  have hlen := (List.perm_insertionSort sortLe g0.2).length_eq
  rw [hcon2] at hlen
  have hz : g0.2.length = 0 := by simpa using hlen.symm
  exact List.eq_nil_of_length_eq_zero hz

/-- C2.  For a duplicate-free directory listing whose names all match the
spec's naming pattern, `group_gopro_files` partitions the files: each file's
path occurs exactly once over all groups and lies in exactly one group, and
two files land in the same group exactly when their identifier slices
(`filename[4:8]`, the characters at offsets 4..7) agree — membership depends
on nothing else. -/
theorem c2_grouping_partition (d : String) (listing : List String)
    (hnd : listing.Nodup) (hpat : ∀ f ∈ listing, specPattern f = true) :
    (∀ f ∈ listing,
      (((group_gopro_files d listing).flatMap Prod.snd).count (ospJoin d f) = 1 ∧
       (group_gopro_files d listing).countP (fun g => decide (ospJoin d f ∈ g.2)) = 1)) ∧
    (∀ f1 ∈ listing, ∀ f2 ∈ listing,
      ((∃ g ∈ group_gopro_files d listing,
          ospJoin d f1 ∈ g.2 ∧ ospJoin d f2 ∈ g.2) ↔
        videoNumberOf f1 = videoNumberOf f2)) := by
  have hGH : ∀ f ∈ listing, pyStartswith f ("GH") = true :=
    fun f hf => specPattern_GH (hpat f hf)
  have hfilter : listing.filter isGoproFile = listing :=
    List.filter_eq_self.mpr (fun f hf => specPattern_isGopro (hpat f hf))
  have hperm :
      (((group_gopro_files d listing).flatMap Prod.snd)).Perm (listing.map (ospJoin d)) := by
    have h := group_flatMap_perm d listing
    rwa [hfilter] at h
  have hpathsnd : (listing.map (ospJoin d)).Nodup := paths_nodup hnd hGH
  constructor
  · intro f hf
    have hc : ((group_gopro_files d listing).flatMap Prod.snd).count (ospJoin d f) = 1 := by
      rw [hperm.count_eq]
      exact List.count_eq_one_of_mem hpathsnd (List.mem_map_of_mem _ hf)
    exact ⟨hc, countP_eq_one_of_count_flatMap _ _ hc⟩
  · intro f1 hf1 f2 hf2
    constructor
    · rintro ⟨g, hg, hx1, hx2⟩
      obtain ⟨fa, hfa, hka, hxa⟩ := group_origin d listing g hg _ hx1
      obtain ⟨fb, hfb, hkb, hxb⟩ := group_origin d listing g hg _ hx2
      rw [hfilter] at hfa hfb
      have hea : f1 = fa := ospJoin_inj_GH (hGH f1 hf1) (hGH fa hfa) hxa
      have heb : f2 = fb := ospJoin_inj_GH (hGH f2 hf2) (hGH fb hfb) hxb
      rw [hea, heb, hka, hkb]
    · intro hk
      obtain ⟨g1, hg1, hk1, hm1⟩ := group_mem_of d listing (hfilter ▸ hf1)
      obtain ⟨g2, hg2, hk2, hm2⟩ := group_mem_of d listing (hfilter ▸ hf2)
      have hgg : g1 = g2 :=
        eq_of_keys_nodup _ (group_keys_nodup d listing) g1 hg1 g2 hg2
          (by rw [hk1, hk2, hk])
      exact ⟨g1, hg1, hm1, hgg ▸ hm2⟩

/-- Witness for C2 on a concrete three-file listing forming two groups. -/
theorem c2_witness :
    ((["GH010001.MP4", "GH020001.MP4", "GH010002.MP4"] : List String).Nodup ∧
     (∀ f ∈ (["GH010001.MP4", "GH020001.MP4", "GH010002.MP4"] : List String),
       specPattern f = true)) ∧
    (∀ f ∈ (["GH010001.MP4", "GH020001.MP4", "GH010002.MP4"] : List String),
      (((group_gopro_files (".") ["GH010001.MP4", "GH020001.MP4", "GH010002.MP4"]).flatMap
          Prod.snd).count (ospJoin (".") f) = 1 ∧
       (group_gopro_files (".") ["GH010001.MP4", "GH020001.MP4", "GH010002.MP4"]).countP
          (fun g => decide (ospJoin (".") f ∈ g.2)) = 1)) ∧
    (∀ f1 ∈ (["GH010001.MP4", "GH020001.MP4", "GH010002.MP4"] : List String),
      ∀ f2 ∈ (["GH010001.MP4", "GH020001.MP4", "GH010002.MP4"] : List String),
      ((∃ g ∈ group_gopro_files (".") ["GH010001.MP4", "GH020001.MP4", "GH010002.MP4"],
          ospJoin (".") f1 ∈ g.2 ∧ ospJoin (".") f2 ∈ g.2) ↔
        videoNumberOf f1 = videoNumberOf f2)) :=
  ⟨⟨by decide, by decide⟩,
   (c2_grouping_partition (".") ["GH010001.MP4", "GH020001.MP4", "GH010002.MP4"]
      (by decide) (by decide)).1,
   (c2_grouping_partition (".") ["GH010001.MP4", "GH020001.MP4", "GH010002.MP4"]
      (by decide) (by decide)).2⟩

/-! ## C9: dispatch of single-part and multi-part groups in merge mode -/

lemma runMergeGroups_eq (env : BatchEnv) (outdir : String)
    (hcopy : ∀ p, env.copyOk p = true) :
    ∀ gs : List (String × List String), (∀ g ∈ gs, g.2 ≠ []) →
      runMergeGroups env outdir gs =
        (gs.map (fun g =>
          if 1 < g.2.length then
            BatchEvent.merged (ospJoin outdir (g.1 ++ (".MP4"))) g.2
              ((g.2.map (fun p => get_video_duration (env.probe p))).sum)
              (merge_videos_fast (env.mergeEnvOf (ospJoin outdir (g.1 ++ (".MP4"))))
                (some ((g.2.map (fun p => get_video_duration (env.probe p))).sum)))
          else
            BatchEvent.copied (g.2.headD ("")) (ospJoin outdir (g.1 ++ (".MP4")))), false) := by
  intro gs
  induction gs with
  | nil => intro _; rfl
  | cons g rest ih =>
    intro hne
    obtain ⟨k, ps⟩ := g
    have hrest := ih (fun g2 hg2 => hne g2 (List.mem_cons_of_mem _ hg2))
    by_cases hlen : 1 < ps.length
    · simp only [runMergeGroups, if_pos hlen, List.map_cons, hrest]
    · cases ps with
      | nil => exact absurd rfl (hne (k, []) (List.mem_cons_self _ _))
      | cons p ptail =>
        simp only [runMergeGroups, if_neg hlen, hcopy p, if_pos rfl, List.map_cons, hrest]
        simp [hlen]

/-- C9.  In merge mode (with the per-item copies succeeding), the batch maps
each group to exactly one action: a group with exactly one part is plainly
copied to `<identifier>.MP4` in the output directory and no merge is invoked
for it, while a group with more than one part is handed to
`merge_videos_fast` together with the sum of the probed durations of its
parts. -/
theorem c9_single_part_copied (env : BatchEnv) (hcopy : ∀ p, env.copyOk p = true) :
    process_gopro_videos env true =
      ((group_gopro_files env.inputDir env.listing).map (fun g =>
        if 1 < g.2.length then
          BatchEvent.merged (ospJoin (create_output_directory env.inputDir) (g.1 ++ (".MP4")))
            g.2 ((g.2.map (fun p => get_video_duration (env.probe p))).sum)
            (merge_videos_fast
              (env.mergeEnvOf
                (ospJoin (create_output_directory env.inputDir) (g.1 ++ (".MP4"))))
              (some ((g.2.map (fun p => get_video_duration (env.probe p))).sum)))
        else
          BatchEvent.copied (g.2.headD (""))
            (ospJoin (create_output_directory env.inputDir) (g.1 ++ (".MP4")))), false) := by
  have h := runMergeGroups_eq env (create_output_directory env.inputDir) hcopy
    (group_gopro_files env.inputDir env.listing)
    (group_ne_nil env.inputDir env.listing)
  simpa [process_gopro_videos] using h

/-- Witness for C9: the spec's own examples — the single-part group `0002`
is plainly copied (no merged event), and the two-part group `0001` is merged
with the summed probed durations 10 + 10 = 20. -/
theorem c9_witness :
    ((∀ p, envSinglePart.copyOk p = true) ∧
     process_gopro_videos envSinglePart true =
       ([BatchEvent.copied ("./GH010002.MP4") ("./processed_videos/0002.MP4")], false)) ∧
    process_gopro_videos envTwoPart true =
      ([BatchEvent.merged ("./processed_videos/0001.MP4")
          [("./GH010001.MP4"), ("./GH020001.MP4")] 20
          { concatFileExists := false, emitted := [], waited := true,
            exceptionCaught := false, success := true }], false) :=
  ⟨⟨fun _ => rfl, by
      rw [c9_single_part_copied envSinglePart (fun _ => rfl)]
      with_unfolding_all decide⟩,
   by
      rw [c9_single_part_copied envTwoPart (fun _ => rfl)]
      with_unfolding_all decide⟩

/-! ## C6: is a single item's failure isolated? -/

/-- Counterexample to C6 as stated.  The claim says a failing copy is
reported and never aborts the batch.  In merge mode the single-part copy of
line 159 has no `try` around it: on `envCopyFails` (two single-part groups,
every copy raising `OSError`) the first group's copy failure aborts the
whole run — no event is produced and the second group is never processed. -/
theorem c6_counterexample :
    (process_gopro_videos envCopyFails true).2 = true ∧
    (process_gopro_videos envCopyFails true).1 = [] ∧
    (group_gopro_files envCopyFails.inputDir envCopyFails.listing).length = 2 := by
  refine ⟨?_, ?_, ?_⟩ <;> with_unfolding_all decide

/-- C6 as amended.  In rename mode every copy failure is caught per file and
the batch never aborts; in merge mode, failures inside `merge_videos_fast`
are contained (so a batch whose groups all have more than one part never
aborts either); but a failed `shutil.copy2` of a single-part group in merge
mode raises an uncaught exception and aborts the remainder of the batch. -/
theorem c6_isolation_amended (env : BatchEnv) :
    (process_gopro_videos env false).2 = false ∧
    ((∀ g ∈ group_gopro_files env.inputDir env.listing, 1 < g.2.length) →
      (process_gopro_videos env true).2 = false) := by
  constructor
  · simp [process_gopro_videos]
  · intro hall
    have h : ∀ gs : List (String × List String), (∀ g ∈ gs, 1 < g.2.length) →
        (runMergeGroups env (create_output_directory env.inputDir) gs).2 = false := by
      intro gs
      induction gs with
      | nil => intro _; rfl
      | cons g rest ih =>
        intro hgs
        obtain ⟨k, ps⟩ := g
        have hlen := hgs (k, ps) (List.mem_cons_self _ _)
        simp only [runMergeGroups, if_pos hlen]
        exact ih (fun g2 h2 => hgs g2 (List.mem_cons_of_mem _ h2))
    simpa [process_gopro_videos] using h _ hall

/-- Witness for the amended C6: on the two-part batch neither mode aborts. -/
theorem c6_amended_witness :
    (process_gopro_videos envTwoPart false).2 = false ∧
    (process_gopro_videos envTwoPart true).2 = false :=
  ⟨(c6_isolation_amended envTwoPart).1,
   (c6_isolation_amended envTwoPart).2 (by decide)⟩

end GoproUtility
